import Mathlib

/-!
Shallow embedding of the Mattermost channel-export pipeline (`src/app.py`).

The embedding models the pure logic of the pipeline:
* `fetchLoop` / `serverPages`   — the pagination loop of `export_channel` (lines 73-84),
  run against a fake collaborator that serves a fixed list of posts in pages of 200;
* `keepPost`                    — the date filter (lines 92-94), with the boundary
  instants given in whole seconds as produced by `datetime.strptime(...).timestamp()`;
* `extractCode`                 — the code-block extraction (lines 104-113), built on
  models of Python's `str.count`, `str.find` and `str.rfind`;
* `transformLoop`               — the post-simplification loop (lines 88-130), threading
  the mutable `user_id_to_name` cache;
* `relabelChannel` / `select_channel` — the channel listing (lines 46-60);
* `export_channel`              — the whole per-channel export (lines 62-145).

Network collaborators (`Driver`) are modelled as pure functions inside `Env`:
`d.users.get_user(uid)["username"]` is `Env.getUser` (the claims under study do not
involve user-lookup failure, so the lookup is total), the posts endpoint is
`Env.getPostsPage`, and the two clocks read by the code — `datetime.utcfromtimestamp`
input instants versus `datetime.now()` — are `Env.utcNow` and `Env.localNow`
(`localNow` is `utcNow` shifted by the host's UTC offset).

Machine integers: post `create_at` values are millisecond epoch naturals; date
boundaries are second epoch integers.  Python compares `create_at / 1000` (an exact
real, since the comparison `created > before` on floats of this size is exact) with
the boundary, which is equivalent to comparing `create_at` with `1000 * boundary`.
-/

/-- One entry of `post["metadata"]["files"]` (identifier and filename). -/
structure FileMeta where
  id : String
  name : String
deriving DecidableEq, Repr

/-- A raw post as served by the collaborator: `id`, `user_id`, `create_at`
(millisecond epoch), `message`, and the optional `metadata.files` list
(`none` models the absence of the `"files"` key). -/
structure Post where
  id : String
  user_id : String
  create_at : ℕ
  message : String
  files : Option (List FileMeta)
deriving DecidableEq, Repr

/-- The simplified post record built at lines 102-130 of `src/app.py`. -/
structure SimplePost where
  idx : ℕ
  id : String
  created : String
  username : String
  message : String
  code : Option String
  files : Option (List String)
deriving DecidableEq, Repr

/-- A channel as served by the collaborator (the fields read by the code). -/
structure Channel where
  id : String
  name : String
  type : String
  display_name : String
  header : String
  team_id : String
deriving DecidableEq, Repr

/-- One page of the posts endpoint: the explicit ordering array and the
`id → post` mapping (modelled as an association list). -/
structure PostsPage where
  order : List String
  posts : List (String × Post)
deriving DecidableEq, Repr

/-- The channel-metadata block of the export document (lines 133-141). -/
structure ChannelMeta where
  name : String
  display_name : String
  header : String
  id : String
  team : String
  team_id : String
  exported_at : String
deriving DecidableEq, Repr

/-- The export document: channel metadata plus the simplified posts. -/
structure ExportDoc where
  channel : ChannelMeta
  posts : List SimplePost
deriving DecidableEq, Repr

/-- The pure-function model of the network collaborator and of the clocks. -/
structure Env where
  getUser : String → String
  getPostsPage : String → ℕ → PostsPage
  getTeamName : String → String
  utcNow : ℕ
  localNow : ℕ

/-- The failures `select_channel` can raise: `user_ids[1]` on a list that is too
short (Python `IndexError`) and `user_id_to_name[k]` on a missing key
(Python `KeyError`). -/
inductive SelectErr where
  | indexError : SelectErr
  | keyError : String → SelectErr
deriving DecidableEq, Repr

deriving instance DecidableEq for Except

/-- The triple-backtick fence marker, as a character list. -/
def fence : List Char := "```".toList

/-- Whether the fence marker occurs at position `i` of `m`. -/
def fenceAt (m : List Char) (i : ℕ) : Bool :=
  fence.isPrefixOf (m.drop i)

/-- Model of Python's non-overlapping `message.count("```")`: the first argument
counts characters still to skip after a match. -/
def fenceCountAux : ℕ → List Char → ℕ
  | _, [] => 0
  | k + 1, _ :: rest => fenceCountAux k rest
  | 0, c :: rest =>
      if fence.isPrefixOf (c :: rest) then fenceCountAux 2 rest + 1
      else fenceCountAux 0 rest

/-- `message.count("```")`. -/
def fenceCount (m : List Char) : ℕ := fenceCountAux 0 m

/-- Model of Python's `message.find("```")`: index of the leftmost occurrence. -/
def findFence : List Char → Option ℕ
  | [] => none
  | c :: rest =>
      if fence.isPrefixOf (c :: rest) then some 0
      else (findFence rest).map (· + 1)

/-- Model of Python's `message.rfind("```")`: index of the rightmost occurrence. -/
def rfindFence : List Char → Option ℕ
  | [] => none
  | c :: rest =>
      match rfindFence rest with
      | some j => some (j + 1)
      | none => if fence.isPrefixOf (c :: rest) then some 0 else none

/-- Python slice `m[a:b]` for nonnegative bounds. -/
def pySlice (m : List Char) (a b : ℕ) : List Char := (m.take b).drop a

/-- Lines 105-113 of `src/app.py`: when `message.count("```") > 1`, cut the text
between `find("```") + 3` and `rfind("```")`; an empty cut yields no `code`
field.  When `count ≤ 1` the guard rules out extraction; the unreachable
fall-through (a successful count with no occurrence) also yields `none`. -/
def extractCode (message : String) : Option String :=
  let m := message.toList
  if 1 < fenceCount m then
    match findFence m, rfindFence m with
    | some f, some r =>
        let cut := pySlice m (f + 3) r
        if cut.length = 0 then none else some (String.mk cut)
    | _, _ => none
  else none

/-- Left-pad a decimal rendering to two digits (`strftime` field). -/
def pad2 (n : ℕ) : String :=
  if n < 10 then "0" ++ toString n else toString n

/-- Left-pad a decimal rendering to four digits (`strftime` year field). -/
def pad4 (n : ℕ) : String :=
  if n < 10 then "000" ++ toString n
  else if n < 100 then "00" ++ toString n
  else if n < 1000 then "0" ++ toString n
  else toString n

/-- Gregorian date from days since 1970-01-01 (the standard civil-from-days
computation), giving `(year, month, day)`. -/
def civilFromDays (days : ℕ) : ℕ × ℕ × ℕ :=
  let z := days + 719468
  let era := z / 146097
  let doe := z % 146097
  let yoe := (doe - doe / 1460 + doe / 36524 - doe / 146096) / 365
  let y := yoe + era * 400
  let doy := doe - (365 * yoe + yoe / 4 - yoe / 100)
  let mp := (5 * doy + 2) / 153
  let d := doy - (153 * mp + 2) / 5 + 1
  let m := if mp < 10 then mp + 3 else mp - 9
  (if m ≤ 2 then y + 1 else y, m, d)

/-- Model of `datetime.utcfromtimestamp(t).strftime('%Y-%m-%dT%H:%M:%SZ')` for a
second-epoch instant `t`. -/
def fmtTimestamp (t : ℕ) : String :=
  let days := t / 86400
  let rem := t % 86400
  let ymd := civilFromDays days
  pad4 ymd.1 ++ "-" ++ pad2 ymd.2.1 ++ "-" ++ pad2 ymd.2.2 ++ "T" ++
    pad2 (rem / 3600) ++ ":" ++ pad2 (rem % 3600 / 60) ++ ":" ++ pad2 (rem % 60) ++ "Z"

/-- Lines 92-94 of `src/app.py`:
`if (before and created > before) or (after and created < after): continue`.
Python truthiness makes a boundary equal to `0.0` behave as absent; the
comparison `create_at / 1000 > b` on exact values is `1000 * b < create_at`. -/
def keepPost (before after : Option ℤ) (p : Post) : Bool :=
  let skipBefore :=
    match before with
    | none => false
    | some b => (!decide (b = 0)) && decide (1000 * b < (p.create_at : ℤ))
  let skipAfter :=
    match after with
    | none => false
    | some a => (!decide (a = 0)) && decide ((p.create_at : ℤ) < 1000 * a)
  !(skipBefore || skipAfter)

/-- The username the loop reads back from `user_id_to_name` after the
conditional insert at lines 97-99: the cached name if present, otherwise the
name the collaborator returns for `u`. -/
def resolveName (g : String → String) (cache : List (String × String)) (u : String) : String :=
  match cache.lookup u with
  | some n => n
  | none => g u

/-- The conditional cache insert `user_id_to_name[user_id] = ...` at line 98. -/
def stepCache (g : String → String) (cache : List (String × String)) (u : String) :
    List (String × String) :=
  match cache.lookup u with
  | some _ => cache
  | none => cache ++ [(u, g u)]

/-- Lines 96-129 of `src/app.py`: build one simplified post from the raw post at
enumeration index `i`.  The `files` list is appended to only inside the
`if download_files:` branch, so with downloads disabled it stays empty; the
downloaded bytes themselves never enter the record. -/
def mkSimplePost (g : String → String) (df : Bool) (cache : List (String × String))
    (i : ℕ) (p : Post) : SimplePost :=
  let base : SimplePost :=
    { idx := i
      id := p.id
      created := fmtTimestamp (p.create_at / 1000)
      username := resolveName g cache p.user_id
      message := p.message
      code := extractCode p.message
      files := none }
  match p.files with
  | none => base
  | some fs => { base with files := some (if df then fs.map FileMeta.name else []) }

/-- The loop `for i_post, post in enumerate(reversed(all_posts))` at lines
89-130, over the already-reversed-and-enumerated list, threading the
`user_id_to_name` cache. -/
def transformLoop (g : String → String) (df : Bool) (before after : Option ℤ) :
    List (ℕ × Post) → List (String × String) → List SimplePost × List (String × String)
  | [], cache => ([], cache)
  | (i, p) :: rest, cache =>
      if keepPost before after p then
        let cache1 := stepCache g cache p.user_id
        let res := transformLoop g df before after rest cache1
        (mkSimplePost g df cache i p :: res.1, res.2)
      else transformLoop g df before after rest cache

/-- The reversed enumeration restricted to the posts that pass the date filter:
the raw posts that actually get exported, with their enumeration indices. -/
def retainedEnum (before after : Option ℤ) (allPosts : List Post) : List (ℕ × Post) :=
  (allPosts.reverse.enum).filter fun ip => keepPost before after ip.2

/-- Line 83 of `src/app.py`: expand a page through its ordering array,
`[posts["posts"][post] for post in posts["order"]]` (ids that miss the mapping
would raise in Python; the pages built by `serverPages` never miss). -/
def expandPage (pg : PostsPage) : List Post :=
  pg.order.filterMap fun pid => pg.posts.lookup pid

/-- The pagination `while True:` loop at lines 73-84, with explicit fuel (the
source loop is unbounded); returns the aggregated posts and the list of page
indices requested, in request order.  A page whose `posts` mapping is empty
terminates the loop after being counted as the final fetch. -/
def fetchLoop (getPosts : ℕ → PostsPage) :
    ℕ → ℕ → List Post → List ℕ → Option (List Post × List ℕ)
  | 0, _, _, _ => none
  | fuel + 1, page, acc, log =>
      let pg := getPosts page
      if pg.posts.length = 0 then some (acc, log ++ [page])
      else fetchLoop getPosts fuel (page + 1) (acc ++ expandPage pg) (log ++ [page])

/-- A fake collaborator serving a fixed newest-first post list in pages of 200:
page `p` holds posts `200·p` through `200·p + 199`. -/
def serverPages (allPosts : List Post) (page : ℕ) : PostsPage :=
  let slice := (allPosts.drop (200 * page)).take 200
  { order := slice.map Post.id, posts := slice.map fun p => (p.id, p) }

/-- The aggregation of lines 73-84 run against the fake collaborator; the fuel
`allPosts.length + 2` exceeds the number of fetches the loop can perform. -/
def fetchAllPosts (allPosts : List Post) : Option (List Post × List ℕ) :=
  fetchLoop (serverPages allPosts) (allPosts.length + 2) 0 [] []

/-- Model of Python's `str.split(sep)` for a non-empty separator, scanning left
to right: the first argument counts separator characters still to skip after a
match.  Splitting the empty string yields `[""]`, as in Python. -/
def pySplitAux (sep : List Char) : ℕ → List Char → List Char → List (List Char)
  | k + 1, _ :: rest, acc => pySplitAux sep k rest acc
  | _, [], acc => [acc.reverse]
  | 0, c :: rest, acc =>
      if sep.isPrefixOf (c :: rest) then acc.reverse :: pySplitAux sep (sep.length - 1) rest []
      else pySplitAux sep 0 rest (c :: acc)

/-- `s.split(sep)` as a list of strings. -/
def pySplit (s sep : String) : List String :=
  (pySplitAux sep.toList 0 s.toList []).map String.mk

/-- Lines 49-56 of `src/app.py`, for one channel: non-direct channels pass
through untouched (`continue`); for a direct channel the name is split on
`"__"`, `other_user_id = user_ids[1] if user_ids[0] == my_user_id else
user_ids[0]` (`user_ids[1]` raises `IndexError` when absent), and the display
name is `user_id_to_name[other_user_id]` (`KeyError` when absent; the lookup
is inlined into each branch of the conditional). -/
def relabelChannel (my : String) (userIndex : List (String × String)) (c : Channel) :
    Except SelectErr Channel :=
  if c.type ≠ "D" then .ok c
  else
    match pySplit c.name "__" with
    | [] => .error .indexError
    | u0 :: rest =>
        if u0 = my then
          match rest with
          | [] => .error .indexError
          | u1 :: _ =>
              match userIndex.lookup u1 with
              | none => .error (.keyError u1)
              | some nm => .ok { c with display_name := nm }
        else
          match userIndex.lookup u0 with
          | none => .error (.keyError u0)
          | some nm => .ok { c with display_name := nm }

/-- The relabeling pass of `select_channel` over the whole fetched list. -/
def relabelAll (my : String) (userIndex : List (String × String)) :
    List Channel → Except SelectErr (List Channel)
  | [] => .ok []
  | c :: cs =>
      match relabelChannel my userIndex c with
      | .error e => .error e
      | .ok c1 =>
          match relabelAll my userIndex cs with
          | .error e => .error e
          | .ok cs1 => .ok (c1 :: cs1)

/-- Python string comparison on character lists (code-point lexicographic). -/
def charListLt : List Char → List Char → Bool
  | [], [] => false
  | [], _ :: _ => true
  | _ :: _, [] => false
  | a :: as, b :: bs =>
      if a.toNat < b.toNat then true
      else if b.toNat < a.toNat then false
      else charListLt as bs

/-- The sort key of line 58: `x["display_name"].lower()`, modelled as
per-character lowering of the display name. -/
def sortKey (c : Channel) : List Char := c.display_name.toList.map Char.toLower

/-- Stable insertion by `sortKey`: the new element goes before the first
element whose key is not smaller. -/
def insertByKey (c : Channel) : List Channel → List Channel
  | [] => [c]
  | d :: ds =>
      if charListLt (sortKey d) (sortKey c) then d :: insertByKey c ds
      else c :: d :: ds

/-- Model of `sorted(channels, key=lambda x: x["display_name"].lower())`:
a stable sort by the lowered display name. -/
def sortChannels : List Channel → List Channel
  | [] => []
  | c :: cs => insertByKey c (sortChannels cs)

/-- Lines 46-60 of `src/app.py`: relabel direct channels, then sort by the
lowered display name. -/
def select_channel (my : String) (userIndex : List (String × String)) (cs : List Channel) :
    Except SelectErr (List Channel) :=
  match relabelAll my userIndex cs with
  | .error e => .error e
  | .ok cs1 => .ok (sortChannels cs1)

/-- Lines 62-145 of `src/app.py`: aggregate all pages of the channel, simplify
the posts, and package the export document.  `exported_at` is
`datetime.now().strftime('%Y-%m-%dT%H:%M:%SZ')` — the local clock, rendered
with the same format string used for post timestamps. -/
def export_channel (env : Env) (fuel : ℕ) (cache : List (String × String)) (df : Bool)
    (before after : Option ℤ) (c : Channel) : Option ExportDoc :=
  match fetchLoop (env.getPostsPage c.id) fuel 0 [] [] with
  | none => none
  | some (all_posts, _) =>
      let simple := transformLoop env.getUser df before after all_posts.reverse.enum cache
      some
        { channel :=
            { name := c.name
              display_name := c.display_name
              header := c.header
              id := c.id
              team := env.getTeamName c.team_id
              team_id := c.team_id
              exported_at := fmtTimestamp env.localNow }
          posts := simple.1 }

/-- The fence marker occurs at `f` and at no earlier position: what the spec
calls the first fence. -/
def firstFenceSpec (m : List Char) (f : ℕ) : Prop :=
  fenceAt m f = true ∧ ∀ j < f, fenceAt m j = false

/-- The fence marker occurs at `r` and at no later position: what the spec
calls the last fence.  The quantifier is bounded by `m.length` (no occurrence
can start beyond the end) to keep the predicate decidable. -/
def lastFenceSpec (m : List Char) (r : ℕ) : Prop :=
  fenceAt m r = true ∧ ∀ j < m.length, fenceAt m j = true → j ≤ r

theorem fenceAt_cons_succ (c : Char) (rest : List Char) (j : ℕ) :
    fenceAt (c :: rest) (j + 1) = fenceAt rest j := rfl

theorem fenceAt_zero (m : List Char) : fenceAt m 0 = fence.isPrefixOf m := rfl

theorem fenceAt_lt_length {m : List Char} {j : ℕ} (h : fenceAt m j = true) :
    j < m.length := by
  by_contra hj
  have hdrop : m.drop j = [] := List.drop_eq_nil_of_le (Nat.le_of_not_lt hj)
  rw [fenceAt, hdrop] at h
  exact absurd h (by decide)

theorem findFence_isFirst :
    ∀ (m : List Char) (f : ℕ), findFence m = some f →
      fenceAt m f = true ∧ ∀ j < f, fenceAt m j = false := by
  intro m
  induction m with
  | nil => intro f h; simp [findFence] at h
  | cons c rest ih =>
      intro f h
      rw [findFence] at h
      by_cases hp : fence.isPrefixOf (c :: rest) = true
      · rw [if_pos hp] at h
        obtain rfl : f = 0 := by exact (Option.some_inj.mp h).symm
        exact ⟨hp, by omega⟩
      · rw [if_neg hp] at h
        obtain ⟨f0, hf0, rfl⟩ := Option.map_eq_some'.mp h
        obtain ⟨h1, h2⟩ := ih f0 hf0
        refine ⟨h1, ?_⟩
        intro j hj
        cases j with
        | zero => simpa [fenceAt_zero] using Bool.eq_false_iff.mpr hp
        | succ j0 => exact (fenceAt_cons_succ c rest j0).trans (h2 j0 (by omega))

theorem findFence_none :
    ∀ m : List Char, findFence m = none → ∀ j, fenceAt m j = false := by
  intro m
  induction m with
  | nil =>
      intro _ j
      rw [fenceAt, List.drop_nil]
      decide
  | cons c rest ih =>
      intro h j
      rw [findFence] at h
      by_cases hp : fence.isPrefixOf (c :: rest) = true
      · rw [if_pos hp] at h; simp at h
      · rw [if_neg hp] at h
        cases j with
        | zero => simpa [fenceAt_zero] using Bool.eq_false_iff.mpr hp
        | succ j0 =>
            rw [fenceAt_cons_succ]
            exact ih (by simpa using h) j0

theorem rfindFence_none :
    ∀ m : List Char, rfindFence m = none → ∀ j, fenceAt m j = false := by
  intro m
  induction m with
  | nil =>
      intro _ j
      rw [fenceAt, List.drop_nil]
      decide
  | cons c rest ih =>
      intro h j
      rw [rfindFence] at h
      cases hr : rfindFence rest with
      | some j0 => rw [hr] at h; simp at h
      | none =>
          rw [hr] at h
          by_cases hp : fence.isPrefixOf (c :: rest) = true
          · rw [if_pos hp] at h; simp at h
          · cases j with
            | zero => simpa [fenceAt_zero] using Bool.eq_false_iff.mpr hp
            | succ j0 => rw [fenceAt_cons_succ]; exact ih hr j0

theorem rfindFence_isLast :
    ∀ (m : List Char) (r : ℕ), rfindFence m = some r →
      fenceAt m r = true ∧ ∀ j, fenceAt m j = true → j ≤ r := by
  intro m
  induction m with
  | nil => intro r h; simp [rfindFence] at h
  | cons c rest ih =>
      intro r h
      rw [rfindFence] at h
      cases hr : rfindFence rest with
      | some j0 =>
          rw [hr] at h
          obtain rfl : r = j0 + 1 := by exact (Option.some_inj.mp h).symm
          obtain ⟨h1, h2⟩ := ih j0 hr
          refine ⟨(fenceAt_cons_succ c rest j0).trans h1, ?_⟩
          intro j hj
          cases j with
          | zero => omega
          | succ j1 =>
              have := h2 j1 ((fenceAt_cons_succ c rest j1).symm.trans hj)
              omega
      | none =>
          rw [hr] at h
          by_cases hp : fence.isPrefixOf (c :: rest) = true
          · rw [if_pos hp] at h
            obtain rfl : r = 0 := by exact (Option.some_inj.mp h).symm
            refine ⟨hp, ?_⟩
            intro j hj
            cases j with
            | zero => omega
            | succ j1 =>
                have := rfindFence_none rest hr j1
                rw [fenceAt_cons_succ] at hj
                rw [Bool.eq_false_iff] at this
                exact absurd hj this
          · rw [if_neg hp] at h; simp at h

theorem findFence_of_first {m : List Char} {f : ℕ} (h : firstFenceSpec m f) :
    findFence m = some f := by
  cases hf : findFence m with
  | none =>
      have := findFence_none m hf f
      rw [h.1] at this
      simp at this
  | some f1 =>
      obtain ⟨h1, h2⟩ := findFence_isFirst m f1 hf
      rcases Nat.lt_trichotomy f f1 with hlt | heq | hgt
      · have := h2 f hlt; rw [h.1] at this; simp at this
      · rw [heq]
      · have := h.2 f1 hgt; rw [h1] at this; simp at this

theorem rfindFence_of_last {m : List Char} {r : ℕ} (h : lastFenceSpec m r) :
    rfindFence m = some r := by
  cases hr : rfindFence m with
  | none =>
      have := rfindFence_none m hr r
      rw [h.1] at this
      simp at this
  | some r1 =>
      obtain ⟨h1, h2⟩ := rfindFence_isLast m r1 hr
      have hle1 : r1 ≤ r := h.2 r1 (fenceAt_lt_length h1) h1
      have hle2 : r ≤ r1 := h2 r h.1
      exact congrArg some (Nat.le_antisymm hle1 hle2)

/-- C7: with at least two (non-overlapping) fence markers in the message, the
`code` field is the substring strictly between the first fence's end and the
last fence's start, omitted when empty; with fewer than two markers no `code`
field is produced; `"hello ```code``` world"` yields `code = "code"` and six
consecutive backticks yield no `code` field. -/
theorem code_extraction_correct :
    (extractCode "hello ```code``` world" = some "code")
  ∧ (extractCode "``````" = none)
  ∧ (∀ msg : String, fenceCount msg.toList ≤ 1 → extractCode msg = none)
  ∧ (∀ (msg : String) (f r : ℕ), 1 < fenceCount msg.toList →
      firstFenceSpec msg.toList f → lastFenceSpec msg.toList r →
      extractCode msg =
        if (pySlice msg.toList (f + 3) r).length = 0 then none
        else some (String.mk (pySlice msg.toList (f + 3) r))) := by
  refine ⟨by decide, by decide, ?_, ?_⟩
  · intro msg h
    rw [extractCode]
    simp only [if_neg (by omega : ¬ 1 < fenceCount msg.toList)]
  · intro msg f r hcount hf hr
    rw [extractCode]
    simp only [if_pos hcount, findFence_of_first hf, rfindFence_of_last hr]

instance firstFenceSpecDecidable (m : List Char) (f : ℕ) : Decidable (firstFenceSpec m f) :=
  inferInstanceAs (Decidable (fenceAt m f = true ∧ ∀ j < f, fenceAt m j = false))

instance lastFenceSpecDecidable (m : List Char) (r : ℕ) : Decidable (lastFenceSpec m r) :=
  inferInstanceAs (Decidable (fenceAt m r = true ∧ ∀ j < m.length, fenceAt m j = true → j ≤ r))

/-- C7 witness: concrete evaluations through each hypothesis-guarded branch of
`code_extraction_correct` — a message with no fence, and a message
`"a```b```c"` whose first fence starts at 1 and last fence at 5. -/
theorem code_extraction_correct_witness :
    (fenceCount "no fences here".toList ≤ 1 ∧ extractCode "no fences here" = none)
  ∧ (1 < fenceCount "a```b```c".toList
     ∧ firstFenceSpec "a```b```c".toList 1
     ∧ lastFenceSpec "a```b```c".toList 5
     ∧ extractCode "a```b```c" =
        if (pySlice "a```b```c".toList (1 + 3) 5).length = 0 then none
        else some (String.mk (pySlice "a```b```c".toList (1 + 3) 5))) :=
  ⟨⟨by decide, code_extraction_correct.2.2.1 "no fences here" (by decide)⟩,
   ⟨by decide, by decide, by decide,
    code_extraction_correct.2.2.2 "a```b```c" 1 5 (by decide) (by decide) (by decide)⟩⟩

/-- A post created 5 seconds after the epoch, used against boundary 0. -/
def epochBoundaryPost : Post :=
  { id := "pe", user_id := "u", create_at := 5000, message := "", files := none }

/-- A post created exactly at instant 2 (seconds), i.e. 2000 ms. -/
def boundaryPost : Post :=
  { id := "pb", user_id := "u", create_at := 2000, message := "", files := none }

/-- C4 counterexample: with `before` equal to the epoch instant 0, a post that
is strictly newer than the boundary is nevertheless retained — the claimed
equivalence "retained iff not newer than `before`" fails, because the code
tests the converted boundary for Python truthiness and `0.0` is falsy. -/
theorem date_filter_epoch_zero_counterexample :
    keepPost (some 0) none epochBoundaryPost = true
    ∧ ¬ ((epochBoundaryPost.create_at : ℤ) ≤ 1000 * 0) := by
  constructor
  · decide
  · decide

/-- C4 amended: a post is retained iff it is not newer than `before` and not
older than `after` (both inclusive), where a missing boundary — and likewise a
boundary lying exactly at the Unix epoch (instant 0), which the code's
truthiness test treats as absent — imposes no constraint on its side. -/
theorem date_filter_boundaries (before after : Option ℤ) (p : Post) :
    keepPost before after p = true ↔
      ((∀ b : ℤ, before = some b → b ≠ 0 → (p.create_at : ℤ) ≤ 1000 * b)
       ∧ (∀ a : ℤ, after = some a → a ≠ 0 → 1000 * a ≤ (p.create_at : ℤ))) := by
  cases before <;> cases after <;> simp [keepPost] <;> omega

/-- C4 witness: a post exactly at the (inclusive) `before` boundary of 2
seconds, also satisfying an `after` boundary of 1 second, is retained; the
amended equivalence evaluates accordingly at this input. -/
theorem date_filter_boundaries_witness :
    (keepPost (some 2) (some 1) boundaryPost = true ↔
      ((∀ b : ℤ, (some (2 : ℤ)) = some b → b ≠ 0 → (boundaryPost.create_at : ℤ) ≤ 1000 * b)
       ∧ (∀ a : ℤ, (some (1 : ℤ)) = some a → a ≠ 0 → 1000 * a ≤ (boundaryPost.create_at : ℤ))))
    ∧ keepPost (some 2) (some 1) boundaryPost = true :=
  ⟨date_filter_boundaries (some 2) (some 1) boundaryPost, by decide⟩

theorem fetchLoop_pages (allPosts : List Post) :
    ∀ (fuel k : ℕ) (acc : List Post) (log : List ℕ),
      (allPosts.drop (200 * k)).length < fuel →
      ∃ res, fetchLoop (serverPages allPosts) fuel k acc log
        = some (res, log ++ List.range' k (((allPosts.drop (200 * k)).length + 199) / 200 + 1)) := by
  intro fuel
  induction fuel with
  | zero => intro k acc log h; exact absurd h (Nat.not_lt_zero _)
  | succ fuel ih =>
      intro k acc log h
      have hpglen : (serverPages allPosts k).posts.length
          = min 200 (allPosts.drop (200 * k)).length := by
        simp [serverPages]
      rw [fetchLoop]
      by_cases h0 : (allPosts.drop (200 * k)).length = 0
      · rw [if_pos (by rw [hpglen, h0]; simp)]
        refine ⟨acc, ?_⟩
        rw [h0]
        norm_num
      · rw [if_neg (by rw [hpglen]; omega)]
        have hdrop : allPosts.drop (200 * (k + 1)) = (allPosts.drop (200 * k)).drop 200 := by
          rw [List.drop_drop, show 200 * k + 200 = 200 * (k + 1) from by ring]
        have hlen : (allPosts.drop (200 * (k + 1))).length
            = (allPosts.drop (200 * k)).length - 200 := by
          rw [hdrop, List.length_drop]
        obtain ⟨res, hres⟩ :=
          ih (k + 1) (acc ++ expandPage (serverPages allPosts k)) (log ++ [k])
            (by rw [hlen]; omega)
        refine ⟨res, ?_⟩
        rw [hres, hlen]
        have harith : ((allPosts.drop (200 * k)).length + 199) / 200 + 1
            = (((allPosts.drop (200 * k)).length - 200 + 199) / 200 + 1) + 1 := by
          omega
        rw [harith, List.range'_succ, List.append_assoc]
        rfl

/-- C1: against a fake collaborator serving `N = allPosts.length` posts in
pages of `P = 200`, the aggregation loop requests exactly the pages
`0, 1, …, ⌈N/P⌉` in increasing order — `⌈N/P⌉ + 1 = (N + 199)/200 + 1`
fetches, the last being the first page with zero posts (a page `p` is empty
iff `N ≤ 200·p`, so every earlier requested page is non-empty). -/
theorem pagination_fetch_schedule (allPosts : List Post) :
    (∃ res, fetchAllPosts allPosts
        = some (res, List.range ((allPosts.length + 199) / 200 + 1)))
  ∧ (∀ p : ℕ, (serverPages allPosts p).posts.length = 0 ↔ allPosts.length ≤ 200 * p) := by
  constructor
  · obtain ⟨res, hres⟩ :=
      fetchLoop_pages allPosts (allPosts.length + 2) 0 [] [] (by simp)
    refine ⟨res, ?_⟩
    rw [fetchAllPosts, hres]
    norm_num [List.range_eq_range']
  · intro p
    simp [serverPages]
    omega

/-- A fixed dummy post for concrete pagination runs. -/
def dummyPost : Post := { id := "d", user_id := "u", create_at := 0, message := "", files := none }

/-- C1 witness: with exactly 201 posts the loop performs 3 fetches, requesting
pages 0, 1, 2 — the schedule `List.range (⌈201/200⌉ + 1)`. -/
theorem pagination_fetch_schedule_witness :
    (∃ res, fetchAllPosts (List.replicate 201 dummyPost)
        = some (res, List.range (((List.replicate 201 dummyPost).length + 199) / 200 + 1)))
    ∧ ((List.replicate 201 dummyPost).length + 199) / 200 + 1 = 3 :=
  ⟨(pagination_fetch_schedule (List.replicate 201 dummyPost)).1, by norm_num⟩

theorem lookup_append (a : String) :
    ∀ l1 l2 : List (String × String),
      (l1 ++ l2).lookup a =
        match l1.lookup a with
        | some b => some b
        | none => l2.lookup a := by
  intro l1
  induction l1 with
  | nil => intro l2; rfl
  | cons kv t ih =>
      intro l2
      obtain ⟨k, v⟩ := kv
      cases h : a == k with
      | true => simp [List.cons_append, List.lookup, h]
      | false => simp [List.cons_append, List.lookup, h, ih]

theorem resolveName_stepCache (g : String → String) (cache : List (String × String))
    (u v : String) : resolveName g (stepCache g cache u) v = resolveName g cache v := by
  rw [stepCache]
  cases hu : cache.lookup u with
  | some n => rfl
  | none =>
      rw [resolveName, resolveName, lookup_append]
      cases hv : cache.lookup v with
      | some n => rfl
      | none =>
          cases hvu : v == u with
          | true =>
              have hveq : v = u := eq_of_beq hvu
              simp [List.lookup, hvu, hveq]
          | false => simp [List.lookup, hvu]

theorem mkSimplePost_stepCache (g : String → String) (df : Bool)
    (cache : List (String × String)) (u : String) (i : ℕ) (p : Post) :
    mkSimplePost g df (stepCache g cache u) i p = mkSimplePost g df cache i p := by
  simp only [mkSimplePost, resolveName_stepCache]

theorem mkSimplePost_idx (g : String → String) (df : Bool)
    (cache : List (String × String)) (i : ℕ) (p : Post) :
    (mkSimplePost g df cache i p).idx = i := by
  simp only [mkSimplePost]
  cases p.files <;> rfl

theorem transformLoop_fst (g : String → String) (df : Bool) (before after : Option ℤ) :
    ∀ (l : List (ℕ × Post)) (cache : List (String × String)),
      (transformLoop g df before after l cache).1
        = (l.filter fun ip => keepPost before after ip.2).map
            fun ip => mkSimplePost g df cache ip.1 ip.2 := by
  intro l
  induction l with
  | nil => intro cache; rfl
  | cons ip rest ih =>
      intro cache
      obtain ⟨i, p⟩ := ip
      by_cases hk : keepPost before after p = true
      · simp only [transformLoop, if_pos hk, List.filter_cons, hk, if_true, List.map_cons]
        rw [ih]
        simp only [mkSimplePost_stepCache]
      · simp only [transformLoop, if_neg hk, List.filter_cons]
        exact ih cache

/-- C2: when the aggregator delivers the raw posts newest-first (each creation
instant at least that of its successor), the exported sequence is the image,
in order, of `retainedEnum` — the filtered reversed enumeration — and that
sequence is non-decreasing in creation instant: chronological oldest-first
order holds after transformation. -/
theorem transform_chronological (g : String → String) (df : Bool) (before after : Option ℤ)
    (cache : List (String × String)) (allPosts : List Post)
    (h : List.Chain' (fun p q : Post => q.create_at ≤ p.create_at) allPosts) :
    (transformLoop g df before after allPosts.reverse.enum cache).1
        = (retainedEnum before after allPosts).map (fun ip => mkSimplePost g df cache ip.1 ip.2)
    ∧ List.Chain' (fun x y : ℕ × Post => x.2.create_at ≤ y.2.create_at)
        (retainedEnum before after allPosts) := by
  constructor
  · simp only [retainedEnum]
    exact transformLoop_fst g df before after allPosts.reverse.enum cache
  · have h1 : List.Chain' (fun p q : Post => p.create_at ≤ q.create_at) allPosts.reverse := by
      rw [List.chain'_reverse]
      exact h
    have h2 : List.Chain' (fun x y : ℕ × Post => x.2.create_at ≤ y.2.create_at)
        allPosts.reverse.enum := by
      rw [← List.enum_map_snd allPosts.reverse] at h1
      exact (List.chain'_map Prod.snd).mp h1
    haveI : IsTrans (ℕ × Post) (fun x y : ℕ × Post => x.2.create_at ≤ y.2.create_at) :=
      ⟨fun _ _ _ hab hbc => le_trans hab hbc⟩
    simp only [retainedEnum]
    rw [List.chain'_iff_pairwise] at h2 ⊢
    exact List.Pairwise.sublist (List.filter_sublist _) h2

/-- The newer of two concrete posts (2000 ms). -/
def wPostNew : Post := { id := "n", user_id := "u1", create_at := 2000, message := "newer", files := none }

/-- The older of two concrete posts (1000 ms). -/
def wPostOld : Post := { id := "o", user_id := "u2", create_at := 1000, message := "older", files := none }

/-- A collaborator that resolves every user id to the username "alice". -/
def gAlice : String → String := fun _ => "alice"

/-- C2 witness: a concrete two-post newest-first history run through the
transformation. -/
theorem transform_chronological_witness :
    List.Chain' (fun p q : Post => q.create_at ≤ p.create_at) [wPostNew, wPostOld]
    ∧ ((transformLoop gAlice true none none [wPostNew, wPostOld].reverse.enum []).1
        = (retainedEnum none none [wPostNew, wPostOld]).map
            (fun ip => mkSimplePost gAlice true [] ip.1 ip.2)
      ∧ List.Chain' (fun x y : ℕ × Post => x.2.create_at ≤ y.2.create_at)
          (retainedEnum none none [wPostNew, wPostOld])) :=
  ⟨by simp [List.chain'_cons, wPostNew, wPostOld],
   transform_chronological gAlice true none none [] [wPostNew, wPostOld]
     (by simp [List.chain'_cons, wPostNew, wPostOld])⟩

/-- C3 counterexample: with two posts and an `after` boundary that excludes the
older one, the single exported post carries `idx = 1`, not `idx = 0`: the
exported `idx` values are not the contiguous zero-based positions within the
filtered sequence. -/
theorem idx_counterexample :
    ¬ ((transformLoop gAlice true none (some 2) [wPostNew, wPostOld].reverse.enum []).1.map
          SimplePost.idx
        = List.range
            ((transformLoop gAlice true none (some 2) [wPostNew, wPostOld].reverse.enum []).1.length)) := by
  decide

/-- C3 amended: each exported post's `idx` is its zero-based position within
the *unfiltered* reversed (chronological) enumeration — filtered-out posts
still consume index slots — and when no date boundary is given the `idx`
values are exactly `0, 1, 2, …` over all posts. -/
theorem idx_is_unfiltered_position (g : String → String) (df : Bool)
    (before after : Option ℤ) (cache : List (String × String)) (allPosts : List Post) :
    ((transformLoop g df before after allPosts.reverse.enum cache).1.map SimplePost.idx
        = (retainedEnum before after allPosts).map Prod.fst)
    ∧ (before = none → after = none →
        (transformLoop g df before after allPosts.reverse.enum cache).1.map SimplePost.idx
          = List.range allPosts.length) := by
  constructor
  · rw [transformLoop_fst]
    simp only [retainedEnum]
    rw [List.map_map]
    exact List.map_congr_left fun ip _ => mkSimplePost_idx g df cache ip.1 ip.2
  · intro hb ha
    subst hb; subst ha
    rw [transformLoop_fst]
    have hfilter : (allPosts.reverse.enum.filter fun ip => keepPost none none ip.2)
        = allPosts.reverse.enum :=
      List.filter_eq_self.mpr fun _ _ => rfl
    rw [hfilter, List.map_map]
    rw [show (SimplePost.idx ∘ fun ip : ℕ × Post => mkSimplePost g df cache ip.1 ip.2)
          = Prod.fst from funext fun ip => mkSimplePost_idx g df cache ip.1 ip.2]
    rw [List.enum_map_fst, List.length_reverse]

/-- C3 witness: with the `after` boundary the exported indices follow the
unfiltered enumeration positions, and with no boundaries they are exactly
`0, 1, …` over all posts. -/
theorem idx_is_unfiltered_position_witness :
    ((transformLoop gAlice true none (some 2) [wPostNew, wPostOld].reverse.enum []).1.map
        SimplePost.idx
      = (retainedEnum none (some 2) [wPostNew, wPostOld]).map Prod.fst)
    ∧ ((transformLoop gAlice false none none [wPostNew, wPostOld].reverse.enum []).1.map
        SimplePost.idx
      = List.range ([wPostNew, wPostOld] : List Post).length) :=
  ⟨(idx_is_unfiltered_position gAlice true none (some 2) [] [wPostNew, wPostOld]).1,
   (idx_is_unfiltered_position gAlice false none none [] [wPostNew, wPostOld]).2 rfl rfl⟩

/-- A post carrying one file attachment named "a.txt". -/
def attachmentPost : Post :=
  { id := "pa", user_id := "u", create_at := 0, message := "hi",
    files := some [{ id := "f1", name := "a.txt" }] }

/-- C8: evaluation at the failing input.  With `download_files = False`, a post
whose metadata carries one file named "a.txt" is exported with `files = some []`
— the filename list stays empty because `filenames.append(...)` sits inside the
`if download_files:` branch — instead of the claimed `some ["a.txt"]`. -/
theorem files_empty_when_downloads_disabled :
    ((transformLoop gAlice false none none [attachmentPost].reverse.enum []).1.map
        SimplePost.files = [some []])
    ∧ (some ([] : List String) ≠ some ["a.txt"]) := by
  refine ⟨by decide, by decide⟩

/-- Only the `display_name` field may differ from the fetched channel, and
non-direct channels are returned exactly as fetched. -/
def frameOK (c c1 : Channel) : Prop :=
  c1.id = c.id ∧ c1.name = c.name ∧ c1.type = c.type ∧ c1.header = c.header
    ∧ c1.team_id = c.team_id ∧ (c.type ≠ "D" → c1 = c)

theorem relabelChannel_frame (my : String) (userIndex : List (String × String))
    (c c1 : Channel) (h : relabelChannel my userIndex c = .ok c1) : frameOK c c1 := by
  rw [relabelChannel] at h
  split at h
  · next =>
      obtain rfl : c = c1 := (Except.ok.injEq _ _).mp h
      exact ⟨rfl, rfl, rfl, rfl, rfl, fun _ => rfl⟩
  · next hD =>
      push_neg at hD
      split at h
      · exact absurd h (by simp)
      · split at h
        · split at h
          · exact absurd h (by simp)
          · split at h
            · exact absurd h (by simp)
            · obtain rfl := (Except.ok.injEq _ _).mp h
              exact ⟨rfl, rfl, rfl, rfl, rfl, fun hc => absurd hD hc⟩
        · split at h
          · exact absurd h (by simp)
          · obtain rfl := (Except.ok.injEq _ _).mp h
            exact ⟨rfl, rfl, rfl, rfl, rfl, fun hc => absurd hD hc⟩

theorem relabelAll_frame (my : String) (userIndex : List (String × String)) :
    ∀ (cs cs1 : List Channel), relabelAll my userIndex cs = .ok cs1 →
      List.Forall₂ frameOK cs cs1 := by
  intro cs
  induction cs with
  | nil =>
      intro cs1 h
      rw [relabelAll] at h
      obtain rfl : ([] : List Channel) = cs1 := by exact (Except.ok.injEq _ _).mp h
      exact List.Forall₂.nil
  | cons c rest ih =>
      intro cs1 h
      rw [relabelAll] at h
      rcases hc : relabelChannel my userIndex c with e | c1 <;> rw [hc] at h
      · simp at h
      · rcases hr : relabelAll my userIndex rest with e | rest1 <;> rw [hr] at h
        · simp at h
        · obtain rfl : c1 :: rest1 = cs1 := by exact (Except.ok.injEq _ _).mp h
          exact List.Forall₂.cons (relabelChannel_frame my userIndex c c1 hc) (ih rest1 hr)

theorem insertByKey_perm (c : Channel) : ∀ l : List Channel, (insertByKey c l).Perm (c :: l) := by
  intro l
  induction l with
  | nil => exact List.Perm.refl _
  | cons d ds ih =>
      rw [insertByKey]
      by_cases hlt : charListLt (sortKey d) (sortKey c) = true
      · rw [if_pos hlt]
        exact (ih.cons d).trans (List.Perm.swap c d ds)
      · rw [if_neg hlt]

theorem sortChannels_perm : ∀ cs : List Channel, (sortChannels cs).Perm cs := by
  intro cs
  induction cs with
  | nil => exact List.Perm.refl _
  | cons c rest ih =>
      rw [sortChannels]
      exact (insertByKey_perm c (sortChannels rest)).trans (ih.cons c)

/-- C10: when channel listing succeeds, its output is a permutation of a list
that agrees with the fetched channel list entry-by-entry on every field except
possibly `display_name`, and entry-by-entry equals it outright on non-direct
channels — the listing modifies only the `display_name` of direct channels and
otherwise only reorders. -/
theorem select_channel_frame (my : String) (userIndex : List (String × String))
    (cs out : List Channel) (h : select_channel my userIndex cs = .ok out) :
    ∃ cs1, List.Forall₂ frameOK cs cs1 ∧ out.Perm cs1 := by
  rw [select_channel] at h
  rcases hrel : relabelAll my userIndex cs with e | cs1 <;> rw [hrel] at h
  · simp at h
  · obtain rfl : sortChannels cs1 = out := by exact (Except.ok.injEq _ _).mp h
    exact ⟨cs1, relabelAll_frame my userIndex cs cs1 hrel, sortChannels_perm cs1⟩

/-- A concrete direct-message channel between users "u1" and "u2". -/
def chDirect : Channel :=
  { id := "c1", name := "u1__u2", type := "D", display_name := "u1__u2", header := "",
    team_id := "t1" }

/-- A concrete open channel, untouched by relabeling. -/
def chTown : Channel :=
  { id := "c2", name := "town-square", type := "O", display_name := "Town Square",
    header := "h", team_id := "t1" }

/-- A user index resolving "u1" to "ann" and "u2" to "bob". -/
def wIndex : List (String × String) := [("u1", "ann"), ("u2", "bob")]

/-- C10 witness: a concrete two-channel listing succeeds, so the frame-and-
permutation theorem applies to it. -/
theorem select_channel_frame_witness :
    (select_channel "u1" wIndex [chDirect, chTown]
        = .ok [{ chDirect with display_name := "bob" }, chTown])
    ∧ (∃ cs1, List.Forall₂ frameOK [chDirect, chTown] cs1
        ∧ List.Perm [{ chDirect with display_name := "bob" }, chTown] cs1) :=
  ⟨by decide,
   select_channel_frame "u1" wIndex [chDirect, chTown]
     [{ chDirect with display_name := "bob" }, chTown] (by decide)⟩

/-- C5: for a direct channel whose raw name is exactly two ids joined by
`"__"`, one of them the caller's, the listing resolves `display_name` to the
other participant's username from the user index — stated for the per-channel
relabeling and for a listing containing the channel. -/
theorem dm_display_name (my : String) (userIndex : List (String × String))
    (c : Channel) (u1 u2 : String) (hD : c.type = "D")
    (hs : pySplit c.name "__" = [u1, u2]) :
    (∀ n, u1 = my → userIndex.lookup u2 = some n →
        relabelChannel my userIndex c = .ok { c with display_name := n }
        ∧ select_channel my userIndex [c] = .ok [{ c with display_name := n }])
    ∧ (∀ n, u2 = my → u1 ≠ my → userIndex.lookup u1 = some n →
        relabelChannel my userIndex c = .ok { c with display_name := n }
        ∧ select_channel my userIndex [c] = .ok [{ c with display_name := n }]) := by
  have hsel : ∀ c1, relabelChannel my userIndex c = .ok c1 →
      select_channel my userIndex [c] = .ok [c1] := by
    intro c1 hc
    simp only [select_channel, relabelAll, hc]
    rfl
  constructor
  · intro n h1 hl
    have hrel : relabelChannel my userIndex c = .ok { c with display_name := n } := by
      simp [relabelChannel, hD, hs, h1, hl]
    exact ⟨hrel, hsel _ hrel⟩
  · intro n h2 h1ne hl
    have hrel : relabelChannel my userIndex c = .ok { c with display_name := n } := by
      simp [relabelChannel, hD, hs, h1ne, hl]
    exact ⟨hrel, hsel _ hrel⟩

/-- C5 witness: for channel name "u1__u2", caller "u1" gets display name "bob"
(u2's username) and caller "u2" gets display name "ann" (u1's username). -/
theorem dm_display_name_witness :
    (chDirect.type = "D" ∧ pySplit chDirect.name "__" = ["u1", "u2"])
    ∧ (relabelChannel "u1" wIndex chDirect = .ok { chDirect with display_name := "bob" }
       ∧ select_channel "u1" wIndex [chDirect] = .ok [{ chDirect with display_name := "bob" }])
    ∧ (relabelChannel "u2" wIndex chDirect = .ok { chDirect with display_name := "ann" }
       ∧ select_channel "u2" wIndex [chDirect] = .ok [{ chDirect with display_name := "ann" }]) :=
  ⟨⟨rfl, by decide⟩,
   (dm_display_name "u1" wIndex chDirect "u1" "u2" rfl (by decide)).1 "bob" rfl (by decide),
   (dm_display_name "u2" wIndex chDirect "u1" "u2" rfl (by decide)).2 "ann" rfl (by decide)
     (by decide)⟩

/-- A direct channel whose name has two parts, neither the caller "c0". -/
def chStranger : Channel :=
  { id := "c3", name := "a__b", type := "D", display_name := "a__b", header := "",
    team_id := "t1" }

/-- C6 counterexample: a direct channel whose name splits into two parts with
neither part equal to the caller's id does not make the listing fail at all —
the claim requires a `MalformedChannelName` failure, but the code succeeds,
silently using the first part as the other participant. -/
theorem malformed_name_counterexample :
    select_channel "c0" [("a", "alice")] [chStranger]
        = .ok [{ chStranger with display_name := "alice" }]
    ∧ ∀ e : SelectErr, select_channel "c0" [("a", "alice")] [chStranger] ≠ .error e := by
  have h : select_channel "c0" [("a", "alice")] [chStranger]
      = .ok [{ chStranger with display_name := "alice" }] := by decide
  refine ⟨h, fun e hc => ?_⟩
  rw [h] at hc
  exact Except.noConfusion hc

/-- C6 amended: the code has no malformed-name check.  A single-part direct
channel name fails — with an index-out-of-range error, not a
`MalformedChannelName` — only when that part equals the caller's id; whenever
the first part differs from the caller's id (in particular when no part equals
it) the first part is treated as the other participant, and the only possible
failure is a missing-key lookup of that id. -/
theorem malformed_name_behavior (my : String) (userIndex : List (String × String))
    (c : Channel) (hD : c.type = "D") :
    (∀ u, pySplit c.name "__" = [u] → u = my →
        relabelChannel my userIndex c = .error .indexError)
    ∧ (∀ u0 rest, pySplit c.name "__" = u0 :: rest → u0 ≠ my →
        relabelChannel my userIndex c
          = (match userIndex.lookup u0 with
             | none => .error (.keyError u0)
             | some nm => .ok { c with display_name := nm })) := by
  constructor
  · intro u hs hu
    simp [relabelChannel, hD, hs, hu]
  · intro u0 rest hs hu
    simp [relabelChannel, hD, hs, hu]

/-- A direct channel whose single-part name is the caller's own id. -/
def chSelf : Channel :=
  { id := "c4", name := "u1", type := "D", display_name := "u1", header := "",
    team_id := "t1" }

/-- C6 witness: the single-part name "u1" with caller "u1" hits the
index-out-of-range failure, and the two-part name "a__b" with caller "c0"
resolves through the first part's index entry. -/
theorem malformed_name_behavior_witness :
    (chSelf.type = "D" ∧ pySplit chSelf.name "__" = ["u1"]
      ∧ relabelChannel "u1" wIndex chSelf = .error .indexError)
    ∧ (pySplit chStranger.name "__" = "a" :: ["b"]
      ∧ relabelChannel "c0" [("a", "alice")] chStranger
          = (match List.lookup "a" [("a", "alice")] with
             | none => .error (.keyError "a")
             | some nm => .ok { chStranger with display_name := nm })) :=
  ⟨⟨rfl, by decide, (malformed_name_behavior "u1" wIndex chSelf rfl).1 "u1" (by decide) rfl⟩,
   ⟨by decide,
    (malformed_name_behavior "c0" [("a", "alice")] chStranger rfl).2 "a" ["b"] (by decide)
      (by decide)⟩⟩

/-- An environment whose local clock is one hour ahead of UTC. -/
def skewedEnv : Env :=
  { getUser := gAlice
    getPostsPage := fun _ _ => { order := [], posts := [] }
    getTeamName := fun _ => "team"
    utcNow := 0
    localNow := 3600 }

/-- C9 counterexample: on a host whose local clock is one hour ahead of UTC,
the export document's `exported_at` renders the local capture instant — it
differs from the rendering of the UTC capture instant, so the timestamp does
not record the capture time in UTC (the code formats `datetime.now()`, not
`datetime.utcnow()`). -/
theorem exported_at_counterexample :
    export_channel skewedEnv 1 [] true none none chTown
        = some { channel := { name := chTown.name, display_name := chTown.display_name,
                              header := chTown.header, id := chTown.id, team := "team",
                              team_id := chTown.team_id,
                              exported_at := fmtTimestamp skewedEnv.localNow },
                 posts := [] }
    ∧ fmtTimestamp skewedEnv.localNow ≠ fmtTimestamp skewedEnv.utcNow := by
  refine ⟨by decide, by decide⟩

/-- C9 amended: the export timestamp records the capture time read from the
process-local clock (`datetime.now()`), rendered in the same
`YYYY-MM-DDTHH:MM:SSZ` form used for post timestamps (`fmtTimestamp`); it
coincides with the UTC capture time exactly when the host's UTC offset is
zero. -/
theorem exported_at_local_clock (env : Env) (fuel : ℕ) (cache : List (String × String))
    (df : Bool) (before after : Option ℤ) (c : Channel) (doc : ExportDoc)
    (h : export_channel env fuel cache df before after c = some doc) :
    doc.channel.exported_at = fmtTimestamp env.localNow
    ∧ (env.localNow = env.utcNow → doc.channel.exported_at = fmtTimestamp env.utcNow) := by
  rw [export_channel] at h
  split at h
  · exact absurd h (by simp)
  · obtain rfl := (Option.some.injEq _ _).mp h
    exact ⟨rfl, fun he => by rw [← he]⟩

/-- An environment whose local clock agrees with UTC (offset zero). -/
def utcEnv : Env :=
  { getUser := gAlice
    getPostsPage := fun _ _ => { order := [], posts := [] }
    getTeamName := fun _ => "team"
    utcNow := 42
    localNow := 42 }

/-- The document produced by exporting `chTown` in `utcEnv`. -/
def utcDoc : ExportDoc :=
  { channel := { name := chTown.name, display_name := chTown.display_name,
                 header := chTown.header, id := chTown.id, team := "team",
                 team_id := chTown.team_id,
                 exported_at := fmtTimestamp utcEnv.localNow },
    posts := [] }

/-- C9 witness: a concrete export on a zero-offset host, where the amended
theorem applies and the rendered timestamp equals the UTC rendering. -/
theorem exported_at_local_clock_witness :
    (export_channel utcEnv 1 [] true none none chTown = some utcDoc)
    ∧ (utcDoc.channel.exported_at = fmtTimestamp utcEnv.localNow
       ∧ (utcEnv.localNow = utcEnv.utcNow →
            utcDoc.channel.exported_at = fmtTimestamp utcEnv.utcNow)) :=
  ⟨by decide, exported_at_local_clock utcEnv 1 [] true none none chTown utcDoc (by decide)⟩
